import Mathlib

/-!
Verification of the noesis2hzw converter.

This file gives a shallow embedding of the repository's three stages:

* the schema loader (`processProperty`, `processClassStructure`,
  `processEnumStructure`, `addBuiltInTypes`, `addBuiltInEnums`,
  `readStructures` from structures.ts),
* the type emitter (`outputTypes` / `noesisSubtypeToTSConverter`),
* the data transformer (`processDataStructure`, `processArray`,
  `processCommand`, `outputDataSets` from datasets.ts, together with
  `noesisSubtypeToNoesisTypeConverter` from types.ts),

and proves / refutes the frozen claims about them.

Modelling conventions:

* Values produced by the XML parser (xml2js with `mergeAttrs` and, for data
  sets, `explicitArray: true`) are modelled by `XmlVal`: a node maps each
  field name to the list of values the parser produced for it.  The parser
  never produces an empty list for a present field; accesses to element `[0]`
  of an empty list - impossible in practice - are modelled as TypeError-style
  failures where the JavaScript would crash, and as the string "undefined"
  where JavaScript string interpolation would tolerate the `undefined`.
* Scalar tokens keep their textual form; xml2js's `parseNumbers` /
  `parseBooleans` processors are reflected by the `num` / `bool` scalar
  constructors.  Floating point tokens are out of scope of every claim and
  are not modelled (integers suffice).
* JavaScript exceptions (TypeError and the explicit `throw` in
  `processProperty`) are modelled with `Except String`; `console.error` /
  `console.warn` output is collected in a `Log` list.
* JavaScript `undefined` flowing into a template literal prints as the
  string "undefined"; `jsStr` realizes this for optional strings.
-/

/-- A scalar value produced by the XML parser. -/
inductive XmlScalar where
  | str (s : String)
  | num (n : Int)
  | bool (b : Bool)
deriving DecidableEq, Repr

/-- A parsed XML tree (attributes merged, `explicitArray: true`):
a node maps each field name to the array of parsed values. -/
inductive XmlVal where
  | scalar (v : XmlScalar)
  | node (fields : List (String × List XmlVal))
deriving Repr

/-- One console message. -/
inductive Log where
  | error (msg : String)
  | warn (msg : String)
deriving DecidableEq, Repr

/-- `" ".repeat(n)`. -/
def spaces (n : Nat) : String :=
  String.mk (List.replicate n ' ')

/-- `str.replace(/"/g, '\\"')` from datasets.ts (`escapeString`). -/
def escapeString (s : String) : String :=
  String.join (s.toList.map (fun c => if c = '"' then "\\\"" else String.singleton c))

/-- Wrap in double quotes (the template `"${...}"`). -/
def quoteStr (s : String) : String :=
  "\"" ++ s ++ "\""

/-- Split a character list at every occurrence of the character `c`
(the loop behind `jsSplitChar`; `acc` holds the current segment reversed). -/
def splitOnCharGo (c : Char) : List Char → List Char → List (List Char)
  | [], acc => [acc.reverse]
  | x :: rest, acc =>
    if x = c then acc.reverse :: splitOnCharGo c rest []
    else splitOnCharGo c rest (x :: acc)

/-- JavaScript `s.split(sep)` for a one-character separator (the only
separators the program uses are "." and ";"). -/
def jsSplitChar (s : String) (c : Char) : List String :=
  (splitOnCharGo c s.toList []).map (fun l => String.mk l)

/-- JavaScript `s.replace(pat, rep)` with a nonempty string pattern:
replaces the first occurrence only. -/
def replaceFirstChars (pat rep : List Char) : List Char → List Char
  | [] => []
  | c :: rest =>
    if pat.isPrefixOf (c :: rest) then rep ++ (c :: rest).drop pat.length
    else c :: replaceFirstChars pat rep rest

/-- JavaScript `s.replace(pat, rep)` with a nonempty string pattern:
replaces the first occurrence only. -/
def replaceFirst (s pat rep : String) : String :=
  String.mk (replaceFirstChars pat.toList rep.toList s.toList)

/-- Concatenate a list of strings with a separator between consecutive
elements (JavaScript `Array.prototype.join`). -/
def joinSep (sep : String) : List String → String
  | [] => ""
  | [x] => x
  | x :: y :: rest => x ++ sep ++ joinSep sep (y :: rest)

/-- The final dot-separated segment of a name
(`parts[parts.length - 1]` after `split(".")`). -/
def lastSeg (s : String) : String :=
  (jsSplitChar s '.').getLastD ""

/-- How a possibly-`undefined` string prints inside a template literal. -/
def jsStr (o : Option String) : String :=
  match o with
  | some s => s
  | none => "undefined"

/-- How a parsed value prints inside a template literal. -/
def jsShow (v : XmlVal) : String :=
  match v with
  | .scalar (.str s) => s
  | .scalar (.num n) => toString n
  | .scalar (.bool b) => if b then "true" else "false"
  | .node _ => "[object Object]"

/-- How a parsed array prints inside a template literal
(JavaScript `Array.prototype.toString` joins with ","). -/
def jsShowList (l : List XmlVal) : String :=
  joinSep "," (l.map jsShow)

/-- `${arr[0]}`: prints the head, or "undefined" for the out-of-range index. -/
def jsShowArr0 (l : List XmlVal) : String :=
  match l with
  | [] => "undefined"
  | x :: _ => jsShow x

/-- First-match lookup in an association list (JavaScript object field /
`Map.prototype.get`; keys are unique in both). -/
def mapLookup (m : List (String × α)) (k : String) : Option α :=
  match m with
  | [] => none
  | (k', v) :: rest => if k' = k then some v else mapLookup rest k

/-- `Map.prototype.set`: updates the value in place if the key is present,
appends otherwise. -/
def mapSet (m : List (String × α)) (k : String) (v : α) : List (String × α) :=
  match m with
  | [] => [(k, v)]
  | (k', v') :: rest => if k' = k then (k, v) :: rest else (k', v') :: mapSet rest k v

/-- `data[k]` on a parsed tree: a field lookup on a node, `undefined`
(i.e. `none`) on a scalar. -/
def jsGet (v : XmlVal) (k : String) : Option (List XmlVal) :=
  match v with
  | .scalar _ => none
  | .node fields => mapLookup fields k

/-- `NoesisProperty` from types.ts.  `subType` holds
`subTypeParts[subTypeParts.length - 1]`, which is `undefined` (here `none`)
when the schema gave no usable `SubType`. -/
inductive NoesisProperty where
  | Boolean
  | Command
  | Brush
  | Font
  | String (stringMinWordCount stringMaxWordCount : Option Int)
  | Number (numberMinValue numberMaxValue numberDecimalCount : Option Int)
  | Object (subType : Option String)
  | Image (imageSourcePath : Option String)
  | Enum (subType : Option String)
  | Collection (subType : Option String)
deriving DecidableEq, Repr

/-- `NoesisClass` from types.ts; `properties` keeps Map insertion order. -/
structure NoesisClass where
  name : String
  properties : List (String × NoesisProperty)
deriving DecidableEq, Repr

/-- `NoesisEnum` from types.ts; `items` keeps Map insertion order. -/
structure NoesisEnum where
  name : String
  items : List (String × Int)
deriving DecidableEq, Repr

/-- A registry entry: `NoesisClass | NoesisEnum | NoesisBuiltIn`. -/
inductive NoesisStructure where
  | classDef (c : NoesisClass)
  | enumDef (e : NoesisEnum)
  | builtIn (name : String)
deriving DecidableEq, Repr

/-- The structure registry (`NoesisStructureMap`), a JavaScript `Map`
modelled as an insertion-ordered association list with unique keys. -/
abbrev RegistryList := List (String × NoesisStructure)

/-- `NoesisBuiltInEnums` from types.ts, in object-literal insertion order. -/
def NoesisBuiltInEnums : List (String × List String) :=
  [("Visibility", ["Collapsed", "Visible", "Hidden"]),
   ("Orientation", ["Horizontal", "Vertical"]),
   ("HorizontalAlignment", ["Left", "Center", "Right", "Stretch"]),
   ("VerticalAlignment", ["Top", "Center", "Bottom", "Stretch"]),
   ("TextAlignment", ["Left", "Center", "Right", "Justify"]),
   ("TextWrapping", ["NoWrap", "Wrap", "WrapWithOverflow"]),
   ("TextTrimming", ["None", "CharacterEllipsis", "WordEllipsis"]),
   ("FlowDirection", ["LeftToRight", "RightToLeft"]),
   ("FontFamily", ["Anton", "Bangers", "Oswald", "Roboto", "Roboto-Mono"])]

/-- `NoesisBuiltInSubTypes` from types.ts. -/
def NoesisBuiltInSubTypes : List String :=
  ["Single", "Boolean", "String", "Color", "BitmapImage", "SolidColorBrush", "MessageCommand"]

/-- `noesisSubtypeToTSConverter` from types.ts. -/
def noesisSubtypeToTSConverter (type : String) : String :=
  match type with
  | "Single" => "number"
  | "String" => "string"
  | "Bool" => "boolean"
  | "ImageSource" => "string | ImageSource"
  | "Brush" => "string | Brush"
  | "BaseCommand" => "(parameter?: unknown) => unknown"
  | _ => type

/-- `noesisSubtypeToNoesisTypeConverter` from types.ts. -/
def noesisSubtypeToNoesisTypeConverter (type : String) : String :=
  match type with
  | "Bool" => "Boolean"
  | "ImageSource" => "BitmapImage"
  | "Brush" => "SolidColorBrush"
  | "BaseCommand" => "MessageCommand"
  | _ => type

/-!  ## Schema loader (structures.ts)  -/

/-- A parsed `Property` declaration of a `Class` schema file
(attributes merged by xml2js; absent attributes are `none`).
`Type'` models the `Type` attribute (`Type` is a Lean keyword). -/
structure PropertySource where
  Name : String
  Type' : Option String
  SubType : Option String
  ImageSourcePath : Option String
  StringMinWordCount : Option Int
  StringMaxWordCount : Option Int
  NumberMinValue : Option Int
  NumberMaxValue : Option Int
  NumberDecimalCount : Option Int
deriving DecidableEq, Repr

/-- With `explicitArray: false`, a child that occurs once parses as a single
object, and one that occurs several times parses as an array. -/
inductive OneOrMany (a : Type) where
  | one (x : a)
  | many (l : List a)
deriving DecidableEq, Repr

/-- A parsed `Class` schema root. -/
structure ClassSource where
  Name : String
  Property : OneOrMany PropertySource
deriving DecidableEq, Repr

/-- A parsed `Item` declaration of an `Enum` schema file.  `Value` is already
numeric (xml2js `parseNumbers`), so `Number(item.Value)` is the identity. -/
structure ItemSource where
  Name : String
  Value : Int
deriving DecidableEq, Repr

/-- A parsed `Enum` schema root. -/
structure EnumSource where
  Name : String
  Item : OneOrMany ItemSource
deriving DecidableEq, Repr

/-- One parsed schema file, as classified by `readStructures`
(`result.Class` set / `result.Enum` set / neither, with its file name). -/
inductive StructureSource where
  | classSrc (c : ClassSource)
  | enumSrc (e : EnumSource)
  | unknownSrc (file : String)
deriving DecidableEq, Repr

/-- `subTypeParts` of structures.ts: `property.SubType` is falsy when absent
or the empty string, in which case the parts list is empty. -/
def subTypeParts (p : PropertySource) : List String :=
  match p.SubType with
  | some s => if s = "" then [] else jsSplitChar s '.'
  | none => []

/-- `processProperty` from structures.ts.  The thrown
`Unknown property type` error is modelled with `Except.error`. -/
def processProperty (p : PropertySource) : Except String NoesisProperty :=
  match p.Type' with
  | some "Object" =>
    match p.SubType with
    | some "Brush" => .ok .Brush
    | some "ImageSource" => .ok (.Image p.ImageSourcePath)
    | some "FontFamily" => .ok .Font
    | _ => .ok (.Object (subTypeParts p).getLast?)
  | some "Enum" => .ok (.Enum (subTypeParts p).getLast?)
  | some "String" => .ok (.String p.StringMinWordCount p.StringMaxWordCount)
  | some "Number" => .ok (.Number p.NumberMinValue p.NumberMaxValue p.NumberDecimalCount)
  | some "Boolean" => .ok .Boolean
  | some "Collection" => .ok (.Collection (subTypeParts p).getLast?)
  | some "Command" => .ok .Command
  | t => .error ("Unknown property type: " ++ jsStr t)

/-- The body of the property loop of `processClassStructure`: classify one
property; on success insert it, on failure log the caught error
(template `Error processing property ... of class ...`; a JavaScript `Error`
interpolates as `Error: <message>`). -/
def classPropStep (className : String) (acc : List (String × NoesisProperty) × List Log)
    (p : PropertySource) : List (String × NoesisProperty) × List Log :=
  match processProperty p with
  | .ok prop => (mapSet acc.1 p.Name prop, acc.2)
  | .error e =>
    (acc.1,
     acc.2 ++ [.error ("Error processing property " ++ p.Name ++ " of class " ++
       className ++ ": Error: " ++ e)])

/-- `processClassStructure` from structures.ts.  The `Array.isArray` branch
and the single-property branch run the same per-property body, so both are
folds of `classPropStep` over the property list. -/
def processClassStructure (c : ClassSource) : NoesisClass × List Log :=
  let props := match c.Property with
    | .one p => [p]
    | .many l => l
  let r := props.foldl (classPropStep c.Name) ([], [])
  ({ name := c.Name, properties := r.1 }, r.2)

/-- `processEnumStructure` from structures.ts: it calls
`data.Enum.Item.forEach` directly, which is a TypeError when the parsed
`Item` is a single object rather than an array (`explicitArray: false`). -/
def processEnumStructure (e : EnumSource) : Except String NoesisEnum :=
  match e.Item with
  | .one _ => .error "TypeError: data.Enum.Item.forEach is not a function"
  | .many l =>
    .ok { name := e.Name,
          items := l.foldl (fun acc it => mapSet acc it.Name it.Value) [] }

/-- `addBuiltInTypes` from structures.ts. -/
def addBuiltInTypes (structures : RegistryList) : RegistryList :=
  NoesisBuiltInSubTypes.foldl (fun acc n => mapSet acc n (.builtIn n)) structures

/-- The `NoesisEnum` that `addBuiltInEnums` builds for one built-in enum:
ordinals are assigned by position in the canonical member list. -/
def builtInEnum (name : String) (items : List String) : NoesisEnum :=
  { name := name,
    items := (items.enum).foldl (fun acc p => mapSet acc p.2 (p.1 : Int)) [] }

/-- `addBuiltInEnums` from structures.ts. -/
def addBuiltInEnums (structures : RegistryList) : RegistryList :=
  NoesisBuiltInEnums.foldl (fun acc p => mapSet acc p.1 (.enumDef (builtInEnum p.1 p.2))) structures

/-- One iteration of the file loop of `readStructures`: process the parsed
file and register the structure under its name; a file that is neither
`Class` nor `Enum` is logged and skipped; an uncaught exception (the
`processEnumStructure` TypeError) aborts the whole loader. -/
def readStructuresStep (acc : RegistryList × List Log) (src : StructureSource) :
    Except String (RegistryList × List Log) :=
  match src with
  | .classSrc c =>
    let r := processClassStructure c
    .ok (mapSet acc.1 r.1.name (.classDef r.1), acc.2 ++ r.2)
  | .enumSrc e =>
    match processEnumStructure e with
    | .ok ne => .ok (mapSet acc.1 ne.name (.enumDef ne), acc.2)
    | .error err => .error err
  | .unknownSrc file =>
    .ok (acc.1, acc.2 ++ [.error ("Unknown structure type in file: " ++ file)])

/-- `readStructures` from structures.ts, over the already-parsed schema
files: built-in types are seeded first, then built-in enums, then each file
is processed in directory order. -/
def readStructures (sources : List StructureSource) : Except String (RegistryList × List Log) :=
  sources.foldlM readStructuresStep (addBuiltInEnums (addBuiltInTypes []), [])

/-!  ## Type emitter (`outputTypes` of structures.ts)  -/

/-- The `switch (property.type)` of the class branch of `outputTypes`:
the emitted TypeScript type of one property. -/
def tsTypeOfProperty (property : NoesisProperty) : String :=
  match property with
  | .String _ _ => "string"
  | .Number _ _ _ => "number"
  | .Boolean => "boolean"
  | .Command => "(parameter?: unknown) => unknown"
  | .Object subType => noesisSubtypeToTSConverter (jsStr subType)
  | .Image _ => "string | ImageSource"
  | .Brush => "string | Brush"
  | .Font => "FontFamily"
  | .Enum subType => noesisSubtypeToTSConverter (jsStr subType)
  | .Collection subType => "Array<" ++ noesisSubtypeToTSConverter (jsStr subType) ++ ">"

/-- The text `outputTypes` writes for one registry entry. -/
def outputStructure (structure' : NoesisStructure) (indentLevel : Nat) : String :=
  let indent := spaces indentLevel
  match structure' with
  | .classDef c =>
    "// Definition for structure " ++ c.name ++ "\n" ++
    "export type " ++ c.name ++ " = \x7b\n" ++
    String.join (c.properties.map (fun p =>
      indent ++ p.1 ++ ": " ++ tsTypeOfProperty p.2 ++ ";\n")) ++
    "\x7d\n\n"
  | .enumDef e =>
    "// Definition for enum " ++ e.name ++ "\n" ++
    "export enum " ++ e.name ++ " \x7b\n" ++
    String.join (e.items.map (fun it =>
      indent ++ "\"" ++ it.1 ++ "\" = \"" ++ it.1 ++ "\",\n")) ++
    "\x7d\n\n"
  | .builtIn _ => ""

/-- `outputTypes` from structures.ts: the full text written to
`NoesisTypes.ts` (the fixed preamble, then one block per registry entry in
insertion order). -/
def outputTypes (structures : RegistryList) (indentLevel : Nat) : String :=
  "// Auto-generated TypeScript definitions for Noesis structures\n\n" ++
  "\x69mport \x7b ImageSource \x7d from \"horizon/ui\";\n\n" ++
  "// Complex brushes not yet supported\n" ++
  "export type Brush = never;\n\n" ++
  String.join (structures.map (fun e => outputStructure e.2 indentLevel))

/-!  ## Data transformer (datasets.ts)  -/

/-- `processCommand` from datasets.ts.  `${commandData.Message}` prints the
parsed value array of the `Message` field (or "undefined"). -/
def processCommand (indent : String) (commandData : XmlVal) (indentLevel : Nat) : String :=
  let subIndent := indent ++ spaces indentLevel
  "(parameter?: unknown) => \x7b\n" ++
  subIndent ++ "console.log(\"" ++
  (match jsGet commandData "Message" with
   | some arr => jsShowList arr
   | none => "undefined") ++
  "\", parameter ? parameter : \"\");\n" ++
  indent ++ "\x7d"

/-- Stand-in for Node's `util.inspect(data, ...)` inside one diagnostic
warning; the exact rendering of that warning text is load-bearing for no
claim, only the fact that a warning is logged. -/
def utilInspect (data : XmlVal) : String :=
  jsShow data

/-- The warning of the `Collection` branch of `processDataStructure`. -/
def collectionWarn (propName collectionType structureName : String) (data : XmlVal) : String :=
  "Expected array for collection property " ++ propName ++ " type " ++ collectionType ++
  " of structure " ++ structureName ++ "\n" ++ utilInspect data

/-- The fallback callable of the `Command` branch for an unrecognized
nested command shape. -/
def commandNotRecognized : String :=
  "() => \x7b console.warn(\x27Command type not recognized\x27); \x7d"

/-- The fallback callable of the `Command` branch for an absent command. -/
def commandNotDefined : String :=
  "() => \x7b console.warn(\x27Command not defined\x27); \x7d"

/-- The `itemsData.forEach` loop of `processArray` from datasets.ts,
parameterized by the encoding of one element (`processDataStructure` at the
collection's element type): one `value,` line per element, in order,
aborting on an uncaught exception like the JavaScript `forEach` would. -/
def processArrayGo (subIndent : String) (enc : XmlVal → Except String (String × List Log)) :
    List XmlVal → Except String (String × List Log)
  | [] => .ok ("", [])
  | d :: rest =>
    match enc d with
    | .error e => .error e
    | .ok (t, logs) =>
      match processArrayGo subIndent enc rest with
      | .error e => .error e
      | .ok (t2, logs2) => .ok (subIndent ++ t ++ ",\n" ++ t2, logs ++ logs2)

/-- The `structure.properties.forEach` loop of the class branch of
`processDataStructure` from datasets.ts, parameterized by the per-property
value computation (the `switch (property.type)` body): one `name: value,`
line per declared property, in order, aborting on an uncaught exception
like the JavaScript `forEach` would. -/
def processClassPropsGo (subIndent : String)
    (pv : String → NoesisProperty → Except String (String × List Log)) :
    List (String × NoesisProperty) → Except String (String × List Log)
  | [] => .ok ("", [])
  | (propName, property) :: rest =>
    match pv propName property with
    | .error e => .error e
    | .ok (v, logs) =>
      match processClassPropsGo subIndent pv rest with
      | .error e => .error e
      | .ok (t2, logs2) => .ok (subIndent ++ propName ++ ": " ++ v ++ ",\n" ++ t2, logs ++ logs2)

/-- The two mutually recursive procedures of datasets.ts
(`processDataStructure` and the per-property value `switch` of its class
branch), combined into one fuel-indexed call type so that the recursion is
structural on `fuel` and the kernel can evaluate it.  The named wrappers
below restore the source's signatures. -/
inductive EncodeCall where
  | struct (indent structureType : String) (data : XmlVal)
  | propVal (structureName subIndent propName : String)
      (property : NoesisProperty) (data : XmlVal)

/-- The combined recursion behind `processDataStructure` and
`propertyValue`; see those wrappers for the correspondence with
datasets.ts.  `fuel` bounds the nesting depth of the encoding (the
JavaScript recursion is bounded by the finite data tree); `fuel` exhaustion
is a modelling artifact reported as an error. -/
def encodeGo (structures : RegistryList) (indentLevel : Nat) :
    Nat → EncodeCall → Except String (String × List Log)
  | 0, _ => .error "out of fuel"
  | fuel + 1, call =>
    match call with
    | .struct indent structureType data =>
      let structureName := lastSeg structureType
      match mapLookup structures structureName with
      | some (.classDef c) =>
        let subIndent := indent ++ spaces indentLevel
        match processClassPropsGo subIndent
            (fun propName property =>
              encodeGo structures indentLevel fuel
                (.propVal structureName subIndent propName property data))
            c.properties with
        | .error e => .error e
        | .ok (body, logs) => .ok ("\x7b\n" ++ body ++ indent ++ "\x7d", logs)
      | some (.enumDef e) => .ok (e.name ++ "." ++ jsShow data, [])
      | some (.builtIn name) =>
        match name with
        | "Single" => .ok (jsShow data, [])
        | "Boolean" => .ok (jsShow data, [])
        | "String" =>
          match data with
          | .scalar (.str s) => .ok (quoteStr (escapeString s), [])
          | _ => .error "TypeError: str.replace is not a function"
        | "Color" => .ok (jsShow data, [])
        | "BitmapImage" =>
          match data with
          | .node f =>
            match mapLookup f "UriSource" with
            | some (.scalar (.str s) :: _) =>
              match (jsSplitChar s ';')[1]? with
              | some seg =>
                let imagePath := replaceFirst seg "component/" ""
                if imagePath = "" then
                  .ok ("", [.warn ("Image path not found fo built-in structure " ++
                    structureName ++ ": " ++ s)])
                else
                  .ok (quoteStr imagePath, [])
              | none =>
                .ok ("", [.warn ("Image path not found fo built-in structure " ++
                  structureName ++ ": " ++ s)])
            | some _ => .error "TypeError: imageSource.split is not a function"
            | none => .error "TypeError: cannot index undefined"
          | .scalar _ => .error "TypeError: cannot index undefined"
        | "SolidColorBrush" =>
          match data with
          | .node f =>
            match mapLookup f "Color" with
            | some arr => .ok (quoteStr (jsShowArr0 arr), [])
            | none => .error "TypeError: cannot index undefined"
          | .scalar _ => .error "TypeError: cannot index undefined"
        | "MessageCommand" => .ok (processCommand indent data indentLevel, [])
        | other => .ok ("", [.error ("Unknown built-in: " ++ other)])
      | none => .ok ("", [.error ("Unknown structure type for data: " ++ structureName)])
    | .propVal structureName subIndent propName property data =>
      let propValue := jsGet data propName
      let objectPropValue := jsGet data (structureName ++ "." ++ propName)
      match property with
      | .String _ _ =>
        match propValue with
        | some (.scalar (.str s) :: _) => .ok (quoteStr (escapeString s), [])
        | some _ => .error "TypeError: str.replace is not a function"
        | none => .ok (quoteStr "", [])
      | .Number _ _ _ =>
        match propValue with
        | some arr => .ok (jsShowArr0 arr, [])
        | none => .ok ("0", [])
      | .Boolean =>
        match propValue with
        | some arr => .ok (jsShowArr0 arr, [])
        | none => .ok ("false", [])
      | .Enum subType =>
        match propValue with
        | some arr => .ok (jsStr subType ++ "." ++ jsShowList arr, [])
        | none => .ok ("undefined as any as " ++ jsStr subType, [])
      | .Font =>
        match propValue with
        | some arr => .ok ("FontFamily." ++ jsShowArr0 arr, [])
        | none => .ok ("FontFamily.Bangers", [])
      | .Object subType =>
        match objectPropValue with
        | some (.node f :: _) =>
          match mapLookup f (jsStr subType) with
          | some (inner :: _) =>
            encodeGo structures indentLevel fuel (.struct subIndent (jsStr subType) inner)
          | some [] => .error "TypeError: cannot index undefined"
          | none => .error "TypeError: cannot index undefined"
        | some _ => .error "TypeError: cannot index undefined"
        | none => .ok ("undefined as any as " ++ jsStr subType, [])
      | .Image _ =>
        match propValue with
        | some (.scalar (.str s) :: _) =>
          match (jsSplitChar s ';')[1]? with
          | some seg =>
            let imagePath := replaceFirst seg "component/" ""
            if imagePath = "" then
              .ok (quoteStr "", [.warn ("Image path not found for property " ++ propName ++
                " of structure " ++ structureName ++ ": " ++ s)])
            else
              .ok (quoteStr imagePath, [])
          | none =>
            .ok (quoteStr "", [.warn ("Image path not found for property " ++ propName ++
              " of structure " ++ structureName ++ ": " ++ s)])
        | some _ => .error "TypeError: imageSource.split is not a function"
        | none => .ok (quoteStr "", [])
      | .Brush =>
        match propValue with
        | some arr => .ok (quoteStr (jsShowArr0 arr), [])
        | none => .ok (quoteStr "", [])
      | .Collection subType =>
        match objectPropValue with
        | some [] => .error "TypeError: cannot index undefined"
        | some (x :: _) =>
          let collectionType := noesisSubtypeToNoesisTypeConverter (jsStr subType)
          match x with
          | .node f =>
            match mapLookup f collectionType with
            | some itemsData =>
              match processArrayGo (subIndent ++ spaces indentLevel)
                  (fun d =>
                    encodeGo structures indentLevel fuel
                      (.struct (subIndent ++ spaces indentLevel) collectionType d))
                  itemsData with
              | .error e => .error e
              | .ok (t, logs) => .ok ("[\n" ++ t ++ subIndent ++ "]", logs)
            | none => .ok ("[]", [.warn (collectionWarn propName collectionType structureName data)])
          | .scalar _ => .ok ("[]", [.warn (collectionWarn propName collectionType structureName data)])
        | none => .ok ("[]", [])
      | .Command =>
        match objectPropValue with
        | some [] => .error "TypeError: cannot index undefined"
        | some (x :: _) =>
          match x with
          | .node f =>
            match mapLookup f "MessageCommand" with
            | some (c :: _) => .ok (processCommand subIndent c indentLevel, [])
            | some [] => .error "TypeError: cannot read property of undefined"
            | none =>
              .ok (commandNotRecognized, [.warn ("Unknown command type for property " ++ propName ++
                " of structure " ++ structureName ++ ": " ++ jsShow x)])
          | .scalar _ =>
            .ok (commandNotRecognized, [.warn ("Unknown command type for property " ++ propName ++
              " of structure " ++ structureName ++ ": " ++ jsShow x)])
        | none => .ok (commandNotDefined, [])

/-- `processDataStructure` from datasets.ts: resolve the final segment of
the structure type name in the registry and dispatch on the kind of the
definition found. -/
def processDataStructure (fuel : Nat) (structures : RegistryList) (indent : String)
    (structureType : String) (data : XmlVal) (indentLevel : Nat) :
    Except String (String × List Log) :=
  encodeGo structures indentLevel fuel (.struct indent structureType data)

/-- The per-property `switch (property.type)` of the class branch of
`processDataStructure`: the emitted value for one declared property. -/
def propertyValue (fuel : Nat) (structures : RegistryList) (structureName subIndent propName : String)
    (property : NoesisProperty) (data : XmlVal) (indentLevel : Nat) :
    Except String (String × List Log) :=
  encodeGo structures indentLevel fuel (.propVal structureName subIndent propName property data)

/-- The class-branch property loop of `processDataStructure`, with the
source's signature. -/
def processClassProps (fuel : Nat) (structures : RegistryList) (structureName subIndent : String)
    (props : List (String × NoesisProperty)) (data : XmlVal) (indentLevel : Nat) :
    Except String (String × List Log) :=
  processClassPropsGo subIndent
    (fun propName property =>
      propertyValue fuel structures structureName subIndent propName property data indentLevel)
    props

/-- `processArray` from datasets.ts, with the source's signature: encode
every collection element in order, each on its own `,`-terminated line. -/
def processArray (fuel : Nat) (structures : RegistryList) (indent itemType : String)
    (itemsData : List XmlVal) (indentLevel : Nat) : Except String (String × List Log) :=
  processArrayGo (indent ++ spaces indentLevel)
    (fun d =>
      processDataStructure fuel structures (indent ++ spaces indentLevel) itemType d indentLevel)
    itemsData

/-- `value.type !== "BuiltIn"` as a Boolean. -/
def notBuiltIn (s : NoesisStructure) : Bool :=
  match s with
  | .builtIn _ => false
  | _ => true

/-- `value.name` of a registry entry. -/
def structureValueName (s : NoesisStructure) : String :=
  match s with
  | .classDef c => c.name
  | .enumDef e => e.name
  | .builtIn n => n

/-- The import list of a generated data module: the names of all
non-built-in registry entries, in insertion order. -/
def importNames (structures : RegistryList) : List String :=
  (structures.filter (fun e => notBuiltIn e.2)).map (fun e => structureValueName e.2)

/-- One parsed data set file: its file name, the name of its root element
(`Object.keys(result)[0]`), and the parsed root content. -/
structure DataFile where
  file : String
  rootType : String
  data : XmlVal

/-- The full contents of one generated data module: the fixed header, the
the import of every non-built-in type name, and the single exported constant
initialized with the encoded literal. -/
def dataModuleContent (structures : RegistryList) (file rootType dataSet : String) : String :=
  "// Auto-generated data context from Noesis data set: " ++ file ++ "\n\n" ++
  "\x69mport \x7b " ++ joinSep ", " (importNames structures) ++
  " \x7d from \"./NoesisTypes\";\n\n" ++
  "export const dataContext: " ++ rootType ++ " = " ++ dataSet ++ ";\n"

/-- The per-file work of `outputDataSets`: the name of the written `.ts`
file, its full contents, and the console output of the transformation. -/
def outputDataSetFile (fuel : Nat) (structures : RegistryList) (f : DataFile)
    (indentLevel : Nat) : Except String (String × String × List Log) :=
  match processDataStructure fuel structures "" f.rootType f.data indentLevel with
  | .error e => .error e
  | .ok (dataSet, logs) =>
    .ok (replaceFirst f.file ".xaml" ".ts",
      dataModuleContent structures f.file f.rootType dataSet,
      logs)

/-- `outputDataSets` from datasets.ts over the already-parsed data files:
each file is transformed and written in order; an uncaught exception aborts
the remaining files, but ordinary error logs do not. -/
def outputDataSets (fuel : Nat) (structures : RegistryList) (files : List DataFile)
    (indentLevel : Nat) : Except String (List (String × String) × List Log) :=
  match files with
  | [] => .ok ([], [])
  | f :: rest =>
    match outputDataSetFile fuel structures f indentLevel with
    | .error e => .error e
    | .ok (ts, content, logs) =>
      match outputDataSets fuel structures rest indentLevel with
      | .error e => .error e
      | .ok (others, logs2) => .ok ((ts, content) :: others, logs ++ logs2)

/-!  ## Helper definitions for the statements and proofs  -/

/-- The registry right after seeding, before any schema file is read. -/
def seedRegistry : RegistryList :=
  addBuiltInEnums (addBuiltInTypes [])

/-- The sequence of `(name, definition)` insertions performed by the
built-in seeding, in seeding order (types first, then enums). -/
def builtinRegSeq : List (String × NoesisStructure) :=
  NoesisBuiltInSubTypes.map (fun n => (n, .builtIn n)) ++
  NoesisBuiltInEnums.map (fun p => (p.1, .enumDef (builtInEnum p.1 p.2)))

/-- The `(name, definition)` insertions one parsed schema file performs
(none for a skipped unknown file; an enum that crashes the loader
registers nothing either). -/
def sourceReg (src : StructureSource) : List (String × NoesisStructure) :=
  match src with
  | .classSrc c => [((processClassStructure c).1.name, .classDef (processClassStructure c).1)]
  | .enumSrc e =>
    match processEnumStructure e with
    | .ok ne => [(ne.name, .enumDef ne)]
    | .error _ => []
  | .unknownSrc _ => []

/-- The class-literal body built from one `name: value,` line per declared
property, in declaration order (used to state that no property is omitted). -/
def classLines (subIndent : String) : List (String × NoesisProperty) → List String → String
  | [], _ => ""
  | _ :: _, [] => ""
  | (n, _) :: ps, v :: vs => subIndent ++ n ++ ": " ++ v ++ ",\n" ++ classLines subIndent ps vs

/-- The sequence-literal body built from one `value,` line per collection
element, in element order. -/
def arrayLines (subIndent : String) : List (String × List Log) → String
  | [] => ""
  | r :: rest => subIndent ++ r.1 ++ ",\n" ++ arrayLines subIndent rest

/-- Concatenation of the console output of a list of encodings. -/
def logsJoin : List (String × List Log) → List Log
  | [] => []
  | r :: rest => r.2 ++ logsJoin rest

/-- The member lines of an emitted enum declaration: one per item, keyed and
valued by the member's own name. -/
def enumMemberLines (indent : String) : List (String × Int) → String
  | [] => ""
  | (n, _) :: rest => indent ++ "\"" ++ n ++ "\" = \"" ++ n ++ "\",\n" ++ enumMemberLines indent rest

/-- The warning the `Image` branch logs when the path cannot be resolved. -/
def imageWarnMsg (propName structureName rawValue : String) : String :=
  "Image path not found for property " ++ propName ++ " of structure " ++
  structureName ++ ": " ++ rawValue

/-- Modelled from the claim's words, for comparison with the code: the
image path obtained by splitting the raw source string on its FIRST
delimiter (the remainder being everything after it) and stripping the fixed
internal-path marker `component/` as a prefix of that remainder.  `none`
when the string has no delimiter. -/
def imagePathPerClaim (raw : String) : Option String :=
  match jsSplitChar raw ';' with
  | _ :: rest :: more =>
    let remainder := joinSep ";" (rest :: more)
    some (if ("component/".toList).isPrefixOf remainder.toList then
            String.mk (remainder.toList.drop "component/".toList.length)
          else remainder)
  | _ => none

/-- Blank out the word-count / numeric-range attributes of a parsed
property declaration. -/
def erasePropertySource (p : PropertySource) : PropertySource :=
  { p with StringMinWordCount := none, StringMaxWordCount := none,
           NumberMinValue := none, NumberMaxValue := none, NumberDecimalCount := none }

/-- Blank out the word-count / numeric-range attributes across a parsed
schema file. -/
def eraseSource (s : StructureSource) : StructureSource :=
  match s with
  | .classSrc c =>
    .classSrc { c with Property :=
      match c.Property with
      | .one p => .one (erasePropertySource p)
      | .many l => .many (l.map erasePropertySource) }
  | s => s

/-- Blank out the word-count / numeric-range fields of a loaded property. -/
def eraseProperty (p : NoesisProperty) : NoesisProperty :=
  match p with
  | .String _ _ => .String none none
  | .Number _ _ _ => .Number none none none
  | p => p

/-- Blank out the word-count / numeric-range fields across a registry
entry. -/
def eraseStructure (s : NoesisStructure) : NoesisStructure :=
  match s with
  | .classDef c =>
    .classDef { c with properties := c.properties.map (fun e => (e.1, eraseProperty e.2)) }
  | s => s

/-- Blank out the word-count / numeric-range fields across the registry. -/
def eraseRegistry (structures : RegistryList) : RegistryList :=
  structures.map (fun e => (e.1, eraseStructure e.2))

/-!  ## General lemmas  -/

theorem strJoin_nil : String.join [] = "" := rfl

theorem strJoin_cons (a : String) (l : List String) :
    String.join (a :: l) = a ++ String.join l := by
  apply String.ext
  simp

theorem mapSet_cons_self (k : String) (v0 v : α) (t : List (String × α)) :
    mapSet ((k, v0) :: t) k v = (k, v) :: t := by
  simp [mapSet]

theorem mapSet_cons_ne (k0 k : String) (v0 v : α) (t : List (String × α)) (hk : k0 ≠ k) :
    mapSet ((k0, v0) :: t) k v = (k0, v0) :: mapSet t k v := by
  simp [mapSet, hk]

theorem mapLookup_mapSet (m : List (String × α)) (k : String) (v : α) (k' : String) :
    mapLookup (mapSet m k v) k' = if k = k' then some v else mapLookup m k' := by
  induction m with
  | nil => simp [mapSet, mapLookup]
  | cons h t ih =>
    obtain ⟨k0, v0⟩ := h
    by_cases hk : k0 = k
    · subst hk
      rw [mapSet_cons_self]
      by_cases hk' : k0 = k'
      · subst hk'
        simp [mapLookup]
      · simp [mapLookup, hk']
    · rw [mapSet_cons_ne _ _ _ _ _ hk]
      by_cases hk' : k0 = k'
      · subst hk'
        have hne : k ≠ k0 := fun h => hk h.symm
        simp [mapLookup, hne]
      · simp [mapLookup, hk', ih]

theorem mem_keys_mapSet (m : List (String × α)) (k : String) (v : α) (k' : String) :
    k' ∈ (mapSet m k v).map Prod.fst ↔ k' ∈ m.map Prod.fst ∨ k' = k := by
  induction m with
  | nil => simp [mapSet]
  | cons h t ih =>
    obtain ⟨k0, v0⟩ := h
    by_cases hk : k0 = k
    · subst hk
      rw [mapSet_cons_self]
      simp
      tauto
    · rw [mapSet_cons_ne _ _ _ _ _ hk]
      simp only [List.map_cons, List.mem_cons, ih]
      tauto

theorem keysNodup_mapSet (m : List (String × α)) (k : String) (v : α)
    (h : (m.map Prod.fst).Nodup) : ((mapSet m k v).map Prod.fst).Nodup := by
  induction m with
  | nil => simp [mapSet]
  | cons hd t ih =>
    obtain ⟨k0, v0⟩ := hd
    simp only [List.map_cons, List.nodup_cons] at h
    by_cases hk : k0 = k
    · subst hk
      rw [mapSet_cons_self]
      simp only [List.map_cons, List.nodup_cons]
      exact h
    · rw [mapSet_cons_ne _ _ _ _ _ hk]
      simp only [List.map_cons, List.nodup_cons]
      refine ⟨fun hmem => ?_, ih h.2⟩
      rw [mem_keys_mapSet] at hmem
      rcases hmem with hmem | hmem
      · exact h.1 hmem
      · exact hk hmem

/-!  ## Claim C3  -/

/-- Claim C3 (code bug): an Enum schema source declaring a single `Item`
child crashes the whole loader (with `explicitArray: false` the lone item is
not an array, so `data.Enum.Item.forEach` is a TypeError that
`readStructures` does not catch); only a list of `Item` children loads and
registers the declared members in declaration order. -/
theorem enum_single_item_crashes_loader :
    readStructures [.enumSrc { Name := "Rarity", Item := .one { Name := "Common", Value := 0 } }] =
      .error "TypeError: data.Enum.Item.forEach is not a function"
  ∧ processEnumStructure
      { Name := "Rarity",
        Item := .many [{ Name := "Common", Value := 0 }, { Name := "Rare", Value := 1 }] } =
      .ok { name := "Rarity", items := [("Common", 0), ("Rare", 1)] } := by
  exact ⟨rfl, rfl⟩

/-!  ## Claim C7  -/

theorem enumMemberLines_eq_join (ind : String) (items : List (String × Int)) :
    String.join (items.map (fun it => ind ++ "\"" ++ it.1 ++ "\" = \"" ++ it.1 ++ "\",\n")) =
      enumMemberLines ind items := by
  induction items with
  | nil => rfl
  | cons h t ih => simp [enumMemberLines, strJoin_cons, ih]

theorem enumMemberLines_names (ind : String) :
    ∀ (items items' : List (String × Int)),
      items.map Prod.fst = items'.map Prod.fst →
      enumMemberLines ind items = enumMemberLines ind items' := by
  intro items
  induction items with
  | nil =>
    intro items' h
    cases items' with
    | nil => rfl
    | cons a t => simp at h
  | cons a t ih =>
    intro items' h
    cases items' with
    | nil => simp at h
    | cons a' t' =>
      simp only [List.map_cons, List.cons.injEq] at h
      simp [enumMemberLines, h.1, ih t' h.2]

/-- Claim C7: for every registered EnumDef, the emitted enumeration
declaration has exactly one member line per item, in insertion order, each
valued by the member's own name as a string literal; the numeric ordinals
never influence the emission. -/
theorem enum_emission_one_member_per_item :
    ∀ (e : NoesisEnum) (lvl : Nat),
      outputStructure (.enumDef e) lvl =
        "// Definition for enum " ++ e.name ++ "\n" ++
        "export enum " ++ e.name ++ " \x7b\n" ++
        enumMemberLines (spaces lvl) e.items ++
        "\x7d\n\n"
    ∧ ∀ (e' : NoesisEnum), e.name = e'.name → e.items.map Prod.fst = e'.items.map Prod.fst →
        outputStructure (.enumDef e) lvl = outputStructure (.enumDef e') lvl := by
  intro e lvl
  have hmain : ∀ (x : NoesisEnum), outputStructure (.enumDef x) lvl =
      "// Definition for enum " ++ x.name ++ "\n" ++
      "export enum " ++ x.name ++ " \x7b\n" ++
      enumMemberLines (spaces lvl) x.items ++
      "\x7d\n\n" := by
    intro x
    simp [outputStructure, enumMemberLines_eq_join]
  refine ⟨hmain e, fun e' hn hi => ?_⟩
  rw [hmain e, hmain e', hn, enumMemberLines_names _ _ _ hi]

/-- Claim C7 witness: the ordinals 5, 7 and 0, 1 emit the same enum text. -/
theorem enum_emission_one_member_per_item_witness :
    outputStructure (.enumDef { name := "Rarity", items := [("Common", 5), ("Rare", 7)] }) 2 =
      outputStructure (.enumDef { name := "Rarity", items := [("Common", 0), ("Rare", 1)] }) 2 :=
  (enum_emission_one_member_per_item _ 2).2 _ rfl rfl

/-!  ## Claim C9  -/

/-- Claim C9: property classification dispatches on SubType before Type:
`Type="Object"` with SubType `Brush` / `ImageSource` / `FontFamily` is
classified as kind Brush / Image / Font, and any other SubType yields kind
Object carrying only the final dot-separated segment of the SubType. -/
theorem processProperty_subtype_dispatch :
    ∀ (nm : String) (ip : Option String) (a b c d e : Option Int),
      processProperty ⟨nm, some "Object", some "Brush", ip, a, b, c, d, e⟩ = .ok .Brush
    ∧ processProperty ⟨nm, some "Object", some "ImageSource", ip, a, b, c, d, e⟩ = .ok (.Image ip)
    ∧ processProperty ⟨nm, some "Object", some "FontFamily", ip, a, b, c, d, e⟩ = .ok .Font
    ∧ (∀ st last, st ≠ "Brush" → st ≠ "ImageSource" → st ≠ "FontFamily" → st ≠ "" →
        (jsSplitChar st '.').getLast? = some last →
        processProperty ⟨nm, some "Object", some st, ip, a, b, c, d, e⟩ =
          .ok (.Object (some last))) := by
  intro nm ip a b c d e
  refine ⟨rfl, rfl, rfl, ?_⟩
  intro st last h1 h2 h3 h4 h5
  simp [processProperty, subTypeParts, h1, h2, h3, h4, h5]

/-- Claim C9 witness: `SubType="NS.Card"` is classified as Object of
`Card`. -/
theorem processProperty_subtype_dispatch_witness :
    processProperty ⟨"p", some "Object", some "NS.Card", none, none, none, none, none, none⟩ =
      .ok (.Object (some "Card")) :=
  (processProperty_subtype_dispatch "p" none none none none none none).2.2.2
    "NS.Card" "Card" (by decide) (by decide) (by decide) (by decide) rfl

/-!  ## Claim C6  -/

/-- Claim C6 counterexample: for the raw value `pack;x/component/a;b` the
code takes only the segment between the first and second delimiter and
removes a mid-string `component/` occurrence, emitting `"x/a"`, while the
claim's reading (remainder after the first delimiter, internal-path prefix
stripped) yields `x/component/a;b`. -/
theorem image_split_truncates_counterexample :
    propertyValue 1 [] "S" "" "Icon" (.Image none)
        (.node [("Icon", [.scalar (.str "pack;x/component/a;b")])]) 2 =
      .ok (quoteStr "x/a", [])
  ∧ imagePathPerClaim "pack;x/component/a;b" = some "x/component/a;b"
  ∧ quoteStr "x/a" ≠ quoteStr "x/component/a;b" := by
  refine ⟨rfl, rfl, ?_⟩
  decide

/-- Claim C6 (amended): for an Image property whose field is present with a
raw string value, encodeValue splits the raw value on the delimiter `;` and
takes the second segment (the text between the first and second
delimiters), removes the first occurrence of the internal-path marker
`component/` from that segment, and emits the result as a quoted string;
when the field is absent it emits an empty string literal; when no
delimiter is present, or the resulting path is empty, it emits an empty
string literal with a warning. -/
theorem image_encoding_amended :
    ∀ (fuel : Nat) (R : RegistryList) (sN sub pName : String) (ip : Option String)
      (d : XmlVal) (lvl : Nat),
      (jsGet d pName = none →
        propertyValue (fuel + 1) R sN sub pName (.Image ip) d lvl = .ok (quoteStr "", []))
    ∧ (∀ s rest, jsGet d pName = some (.scalar (.str s) :: rest) →
        ((jsSplitChar s ';')[1]? = none →
          propertyValue (fuel + 1) R sN sub pName (.Image ip) d lvl =
            .ok (quoteStr "", [.warn (imageWarnMsg pName sN s)]))
      ∧ (∀ seg, (jsSplitChar s ';')[1]? = some seg →
          (replaceFirst seg "component/" "" = "" →
            propertyValue (fuel + 1) R sN sub pName (.Image ip) d lvl =
              .ok (quoteStr "", [.warn (imageWarnMsg pName sN s)]))
        ∧ (replaceFirst seg "component/" "" ≠ "" →
            propertyValue (fuel + 1) R sN sub pName (.Image ip) d lvl =
              .ok (quoteStr (replaceFirst seg "component/" ""), [])))) := by
  intro fuel R sN sub pName ip d lvl
  refine ⟨fun h1 => ?_, fun s rest h1 => ⟨fun h2 => ?_, fun seg h2 => ⟨fun h3 => ?_, fun h3 => ?_⟩⟩⟩
  · simp [propertyValue, encodeGo, h1]
  · simp [propertyValue, encodeGo, imageWarnMsg, h1, h2]
  · simp [propertyValue, encodeGo, imageWarnMsg, h1, h2, h3]
  · simp [propertyValue, encodeGo, h1, h2, h3]

/-- Claim C6 witness: the raw value `pack;component/images/icon.png`
encodes to `"images/icon.png"`. -/
theorem image_encoding_amended_witness :
    propertyValue 1 [] "S" "" "Icon" (.Image none)
        (.node [("Icon", [.scalar (.str "pack;component/images/icon.png")])]) 2 =
      .ok ("\"images/icon.png\"", []) :=
  (((image_encoding_amended 0 [] "S" "" "Icon" none
      (.node [("Icon", [.scalar (.str "pack;component/images/icon.png")])]) 2).2
    "pack;component/images/icon.png" [] rfl).2 "component/images/icon.png" rfl).2 (by decide)

/-!  ## Claim C1  -/

/-- Claim C1 counterexample: with only the built-ins registered, a data
file whose root `Bogus` resolves to nothing still produces a `bogus.ts`
output entry (the claim says no data-module output is produced for it);
the hard error is logged and the next file is still processed. -/
theorem unknown_root_counterexample :
    (outputDataSets 3 seedRegistry
        [{ file := "bogus.xaml", rootType := "Bogus", data := .node [] },
         { file := "ok.xaml", rootType := "String", data := .scalar (.str "hi") }] 2).toOption.map
      (fun r => (r.1.map Prod.fst, r.2)) =
    some (["bogus.ts", "ok.ts"], [.error "Unknown structure type for data: Bogus"]) := rfl

/-- Claim C1 (amended): for every data file whose root element name does
not resolve (by its final dot-separated segment) to any registry entry,
encode logs a hard "unknown structure type" error and the encoded
expression degrades to the empty string; a data-module output file is still
written for that file, with an empty initializer expression, and other data
files in the same run are still processed. -/
theorem unknown_root_amended :
    ∀ (fuel : Nat) (R : RegistryList) (f : DataFile) (lvl : Nat),
      mapLookup R (lastSeg f.rootType) = none →
      outputDataSetFile (fuel + 1) R f lvl =
        .ok (replaceFirst f.file ".xaml" ".ts",
             dataModuleContent R f.file f.rootType "",
             [.error ("Unknown structure type for data: " ++ lastSeg f.rootType)])
    ∧ ∀ (rest : List DataFile) (others : List (String × String)) (logs2 : List Log),
        outputDataSets (fuel + 1) R rest lvl = .ok (others, logs2) →
        outputDataSets (fuel + 1) R (f :: rest) lvl =
          .ok ((replaceFirst f.file ".xaml" ".ts",
                dataModuleContent R f.file f.rootType "") :: others,
               .error ("Unknown structure type for data: " ++ lastSeg f.rootType) :: logs2) := by
  intro fuel R f lvl h
  have hfile : outputDataSetFile (fuel + 1) R f lvl =
      .ok (replaceFirst f.file ".xaml" ".ts",
           dataModuleContent R f.file f.rootType "",
           [.error ("Unknown structure type for data: " ++ lastSeg f.rootType)]) := by
    simp [outputDataSetFile, processDataStructure, encodeGo, h]
  refine ⟨hfile, fun rest others logs2 hrest => ?_⟩
  simp [outputDataSets, hfile, hrest]

/-- Claim C1 witness: the bogus-rooted file is emitted with an empty
initializer and the ok-rooted file after it is still processed. -/
theorem unknown_root_amended_witness :
    outputDataSets 1 seedRegistry
        [{ file := "bogus.xaml", rootType := "Bogus", data := .node [] },
         { file := "ok.xaml", rootType := "String", data := .scalar (.str "hi") }] 2 =
      .ok ([("bogus.ts", dataModuleContent seedRegistry "bogus.xaml" "Bogus" ""),
            ("ok.ts", dataModuleContent seedRegistry "ok.xaml" "String" "\"hi\"")],
           [.error "Unknown structure type for data: Bogus"]) :=
  (unknown_root_amended 0 seedRegistry
      { file := "bogus.xaml", rootType := "Bogus", data := .node [] } 2 rfl).2
    [{ file := "ok.xaml", rootType := "String", data := .scalar (.str "hi") }]
    [("ok.ts", dataModuleContent seedRegistry "ok.xaml" "String" "\"hi\"")] [] rfl

/-!  ## Claim C2  -/

theorem processClassPropsGo_lines :
    ∀ (props : List (String × NoesisProperty)) (sub : String)
      (pv : String → NoesisProperty → Except String (String × List Log))
      (t : String) (lg : List Log),
      processClassPropsGo sub pv props = .ok (t, lg) →
      ∃ vals : List String, vals.length = props.length ∧ t = classLines sub props vals := by
  intro props
  induction props with
  | nil =>
    intro sub pv t lg h
    simp only [processClassPropsGo, Except.ok.injEq, Prod.mk.injEq] at h
    exact ⟨[], rfl, by simp [classLines, h.1.symm]⟩
  | cons hd rest ih =>
    obtain ⟨n, p⟩ := hd
    intro sub pv t lg h
    simp only [processClassPropsGo] at h
    cases hpv : pv n p with
    | error e => rw [hpv] at h; simp at h
    | ok vr =>
      obtain ⟨v, logs⟩ := vr
      rw [hpv] at h
      cases hrest : processClassPropsGo sub pv rest with
      | error e => rw [hrest] at h; simp at h
      | ok r2 =>
        obtain ⟨t2, logs2⟩ := r2
        rw [hrest] at h
        simp only [Except.ok.injEq, Prod.mk.injEq] at h
        obtain ⟨vals, hlen, ht⟩ := ih sub pv t2 logs2 hrest
        refine ⟨v :: vals, by simp [hlen], ?_⟩
        rw [← h.1]
        simp [classLines, ht]

/-- Claim C2: for every Class property whose field is absent from the data
node, encodeValue emits exactly the kind's default (`""` for String, Brush
and Image; `0` for Number; `false` for Boolean; an explicitly-typed
undefined placeholder of the subType for Object and Enum; an empty sequence
literal for Collection), and the emitted class literal has exactly one
`name: value,` line per declared property, in order, so no property is
ever omitted. -/
theorem class_property_defaults_and_no_omission :
    (∀ (fuel : Nat) (R : RegistryList) (sN sub pName : String) (d : XmlVal) (lvl : Nat),
      jsGet d pName = none → jsGet d (sN ++ "." ++ pName) = none →
      ((∀ mn mx, propertyValue (fuel + 1) R sN sub pName (.String mn mx) d lvl =
          .ok (quoteStr "", []))
      ∧ (∀ a b c, propertyValue (fuel + 1) R sN sub pName (.Number a b c) d lvl =
          .ok ("0", []))
      ∧ propertyValue (fuel + 1) R sN sub pName .Boolean d lvl = .ok ("false", [])
      ∧ (∀ st, propertyValue (fuel + 1) R sN sub pName (.Object st) d lvl =
          .ok ("undefined as any as " ++ jsStr st, []))
      ∧ (∀ st, propertyValue (fuel + 1) R sN sub pName (.Enum st) d lvl =
          .ok ("undefined as any as " ++ jsStr st, []))
      ∧ (∀ ip, propertyValue (fuel + 1) R sN sub pName (.Image ip) d lvl =
          .ok (quoteStr "", []))
      ∧ propertyValue (fuel + 1) R sN sub pName .Brush d lvl = .ok (quoteStr "", [])
      ∧ (∀ st, propertyValue (fuel + 1) R sN sub pName (.Collection st) d lvl =
          .ok ("[]", []))))
    ∧ (∀ (fuel : Nat) (R : RegistryList) (ind sty : String) (d : XmlVal) (lvl : Nat)
        (c : NoesisClass) (t : String) (lg : List Log),
        mapLookup R (lastSeg sty) = some (.classDef c) →
        processDataStructure (fuel + 1) R ind sty d lvl = .ok (t, lg) →
        ∃ vals : List String, vals.length = c.properties.length ∧
          t = "\x7b\n" ++ classLines (ind ++ spaces lvl) c.properties vals ++ ind ++ "\x7d") := by
  constructor
  · intro fuel R sN sub pName d lvl h1 h2
    refine ⟨fun mn mx => ?_, fun a b c => ?_, ?_, fun st => ?_, fun st => ?_,
      fun ip => ?_, ?_, fun st => ?_⟩
    all_goals simp [propertyValue, encodeGo, h1, h2]
  · intro fuel R ind sty d lvl c t lg hc h
    simp only [processDataStructure, encodeGo, hc] at h
    cases hp : processClassPropsGo (ind ++ spaces lvl)
        (fun propName property =>
          encodeGo R lvl fuel (.propVal (lastSeg sty) (ind ++ spaces lvl) propName property d))
        c.properties with
    | error e => rw [hp] at h; simp at h
    | ok body =>
      obtain ⟨bt, blg⟩ := body
      rw [hp] at h
      simp only [Except.ok.injEq, Prod.mk.injEq] at h
      obtain ⟨vals, hlen, ht⟩ := processClassPropsGo_lines c.properties _ _ bt blg hp
      exact ⟨vals, hlen, by rw [← h.1, ht]⟩

/-- Claim C2 witness: all eight defaults at a node with no fields. -/
theorem class_property_defaults_and_no_omission_witness :
    propertyValue 1 [] "S" "  " "p" (.String none none) (.node []) 2 = .ok (quoteStr "", [])
  ∧ propertyValue 1 [] "S" "  " "p" (.Number none none none) (.node []) 2 = .ok ("0", [])
  ∧ propertyValue 1 [] "S" "  " "p" .Boolean (.node []) 2 = .ok ("false", [])
  ∧ propertyValue 1 [] "S" "  " "p" (.Object (some "Inner")) (.node []) 2 =
      .ok ("undefined as any as Inner", [])
  ∧ propertyValue 1 [] "S" "  " "p" (.Enum (some "Color")) (.node []) 2 =
      .ok ("undefined as any as Color", [])
  ∧ propertyValue 1 [] "S" "  " "p" (.Image none) (.node []) 2 = .ok (quoteStr "", [])
  ∧ propertyValue 1 [] "S" "  " "p" .Brush (.node []) 2 = .ok (quoteStr "", [])
  ∧ propertyValue 1 [] "S" "  " "p" (.Collection (some "Brush")) (.node []) 2 = .ok ("[]", []) := by
  have h := (class_property_defaults_and_no_omission.1 0 [] "S" "  " "p" (.node []) 2 rfl rfl)
  exact ⟨h.1 none none, h.2.1 none none none, h.2.2.1, h.2.2.2.1 (some "Inner"),
    h.2.2.2.2.1 (some "Color"), h.2.2.2.2.2.1 none, h.2.2.2.2.2.2.1,
    h.2.2.2.2.2.2.2 (some "Brush")⟩

/-!  ## Claim C4  -/

theorem classPropStep_logs (nm : String) (q : PropertySource)
    (p : List (String × NoesisProperty)) (l : List Log) :
    classPropStep nm (p, l) q =
      ((classPropStep nm (p, []) q).1, l ++ (classPropStep nm (p, []) q).2) := by
  unfold classPropStep
  cases processProperty q <;> simp

theorem classFold_decomp (nm : String) :
    ∀ (props : List PropertySource) (p : List (String × NoesisProperty)) (l : List Log),
      props.foldl (classPropStep nm) (p, l) =
        ((props.foldl (classPropStep nm) (p, [])).1,
         l ++ (props.foldl (classPropStep nm) (p, [])).2) := by
  intro props
  induction props with
  | nil => intro p l; simp
  | cons q rest ih =>
    intro p l
    rw [List.foldl_cons, List.foldl_cons]
    rw [classPropStep_logs nm q p l]
    rw [ih ((classPropStep nm (p, []) q).1) (l ++ (classPropStep nm (p, []) q).2)]
    rw [ih ((classPropStep nm (p, []) q).1) ((classPropStep nm (p, []) q).2)]
    simp

/-- Claim C4: a Class property declaration with an unrecognized Type raises
a per-property error that is caught and logged with the owning class and
property name; that property is omitted (the resulting class equals the one
loaded from the remaining declarations) and the class is still registered
with its remaining properties. -/
theorem unknown_type_property_dropped :
    ∀ (nm : String) (pre post : List PropertySource) (bad : PropertySource) (e : String),
      processProperty bad = .error e →
      ((processClassStructure ⟨nm, .many (pre ++ bad :: post)⟩).1 =
        (processClassStructure ⟨nm, .many (pre ++ post)⟩).1)
    ∧ (Log.error ("Error processing property " ++ bad.Name ++ " of class " ++ nm ++
        ": Error: " ++ e) ∈ (processClassStructure ⟨nm, .many (pre ++ bad :: post)⟩).2)
    ∧ (∀ reg logs, readStructures [.classSrc ⟨nm, .many (pre ++ bad :: post)⟩] = .ok (reg, logs) →
        mapLookup reg nm =
          some (.classDef (processClassStructure ⟨nm, .many (pre ++ post)⟩).1)) := by
  intro nm pre post bad e hbad
  have hstepbad : ∀ acc : List (String × NoesisProperty) × List Log,
      classPropStep nm acc bad =
        (acc.1, acc.2 ++ [.error ("Error processing property " ++ bad.Name ++ " of class " ++
          nm ++ ": Error: " ++ e)]) := by
    intro acc
    unfold classPropStep
    rw [hbad]
  have hfold1 : (pre ++ bad :: post).foldl (classPropStep nm) ([], []) =
      ((post.foldl (classPropStep nm) ((pre.foldl (classPropStep nm) ([], [])).1, [])).1,
       (pre.foldl (classPropStep nm) ([], [])).2 ++
         [.error ("Error processing property " ++ bad.Name ++ " of class " ++ nm ++
           ": Error: " ++ e)] ++
         (post.foldl (classPropStep nm) ((pre.foldl (classPropStep nm) ([], [])).1, [])).2) := by
    rw [List.foldl_append, List.foldl_cons, hstepbad, classFold_decomp nm post]
  have hfold2 : (pre ++ post).foldl (classPropStep nm) ([], []) =
      ((post.foldl (classPropStep nm) ((pre.foldl (classPropStep nm) ([], [])).1, [])).1,
       (pre.foldl (classPropStep nm) ([], [])).2 ++
         (post.foldl (classPropStep nm) ((pre.foldl (classPropStep nm) ([], [])).1, [])).2) := by
    rw [List.foldl_append]
    conv_lhs => rw [show pre.foldl (classPropStep nm) ([], []) =
      ((pre.foldl (classPropStep nm) ([], [])).1, (pre.foldl (classPropStep nm) ([], [])).2)
      from rfl]
    rw [classFold_decomp nm post]
  have hcls1 : processClassStructure ⟨nm, .many (pre ++ bad :: post)⟩ =
      ({ name := nm, properties := ((pre ++ bad :: post).foldl (classPropStep nm) ([], [])).1 },
       ((pre ++ bad :: post).foldl (classPropStep nm) ([], [])).2) := rfl
  have hcls2 : processClassStructure ⟨nm, .many (pre ++ post)⟩ =
      ({ name := nm, properties := ((pre ++ post).foldl (classPropStep nm) ([], [])).1 },
       ((pre ++ post).foldl (classPropStep nm) ([], [])).2) := rfl
  have hpart1 : (processClassStructure ⟨nm, .many (pre ++ bad :: post)⟩).1 =
      (processClassStructure ⟨nm, .many (pre ++ post)⟩).1 := by
    rw [hcls1, hcls2]
    simp only [hfold1, hfold2]
  refine ⟨hpart1, ?_, ?_⟩
  · rw [hcls1]
    simp only [hfold1]
    simp
  · intro reg logs h
    have hrs : readStructures [.classSrc ⟨nm, .many (pre ++ bad :: post)⟩] =
        .ok (mapSet seedRegistry nm
              (.classDef (processClassStructure ⟨nm, .many (pre ++ bad :: post)⟩).1),
             [] ++ (processClassStructure ⟨nm, .many (pre ++ bad :: post)⟩).2) := rfl
    rw [hrs] at h
    simp only [Except.ok.injEq, Prod.mk.injEq] at h
    rw [← h.1, mapLookup_mapSet]
    simp [hpart1]

/-- Claim C4 witness: a `Type="Bogus"` property is dropped and logged while
the class keeps its remaining `Boolean` property. -/
theorem unknown_type_property_dropped_witness :
    (processClassStructure ⟨"C", .many
        [⟨"B", some "Bogus", none, none, none, none, none, none, none⟩,
         ⟨"t", some "Boolean", none, none, none, none, none, none, none⟩]⟩).1 =
      (processClassStructure ⟨"C", .many
        [⟨"t", some "Boolean", none, none, none, none, none, none, none⟩]⟩).1
  ∧ Log.error "Error processing property B of class C: Error: Unknown property type: Bogus" ∈
      (processClassStructure ⟨"C", .many
        [⟨"B", some "Bogus", none, none, none, none, none, none, none⟩,
         ⟨"t", some "Boolean", none, none, none, none, none, none, none⟩]⟩).2 := by
  have h := unknown_type_property_dropped "C" []
    [⟨"t", some "Boolean", none, none, none, none, none, none, none⟩]
    ⟨"B", some "Bogus", none, none, none, none, none, none, none⟩
    "Unknown property type: Bogus" rfl
  exact ⟨h.1, h.2.1⟩

/-!  ## Claim C5  -/

theorem processArrayGo_lines :
    ∀ (items : List XmlVal) (sub : String)
      (enc : XmlVal → Except String (String × List Log)) (t : String) (lg : List Log),
      processArrayGo sub enc items = .ok (t, lg) →
      ∃ results : List (String × List Log),
        results.length = items.length ∧
        (∀ i (h1 : i < items.length) (h2 : i < results.length),
          enc (items.get ⟨i, h1⟩) = .ok (results.get ⟨i, h2⟩)) ∧
        t = arrayLines sub results ∧ lg = logsJoin results := by
  intro items
  induction items with
  | nil =>
    intro sub enc t lg h
    simp only [processArrayGo, Except.ok.injEq, Prod.mk.injEq] at h
    refine ⟨[], rfl, by intro i h1 h2; simp at h1, ?_, ?_⟩
    · simp [arrayLines, h.1.symm]
    · simp [logsJoin, h.2.symm]
  | cons d rest ih =>
    intro sub enc t lg h
    simp only [processArrayGo] at h
    cases hd : enc d with
    | error e => rw [hd] at h; simp at h
    | ok r1 =>
      obtain ⟨v, logs⟩ := r1
      rw [hd] at h
      cases hrest : processArrayGo sub enc rest with
      | error e => rw [hrest] at h; simp at h
      | ok r2 =>
        obtain ⟨t2, logs2⟩ := r2
        rw [hrest] at h
        simp only [Except.ok.injEq, Prod.mk.injEq] at h
        obtain ⟨results, hlen, henc, ht, hlg⟩ := ih sub enc t2 logs2 hrest
        refine ⟨(v, logs) :: results, by simp [hlen], ?_, ?_, ?_⟩
        · intro i h1 h2
          cases i with
          | zero => simpa using hd
          | succ j =>
            simp only [List.get_cons_succ]
            exact henc j (by simpa using h1) (by simpa using h2)
        · rw [← h.1, ht]
          simp [arrayLines]
        · rw [← h.2, hlg]
          simp [logsJoin]

/-- Claim C5: for a Collection property with the nested wrapper field
present, encodeValue maps the declared subType through the fixed alias
table to get the element tag, then recursively encodes every sibling
element under that tag, in order, into an ordered-sequence literal; if the
tag is absent, or its value is not a list (a scalar wrapper), it emits an
empty sequence and warns; if the wrapper field is absent, it emits an empty
sequence. -/
theorem collection_encoding :
    (noesisSubtypeToNoesisTypeConverter "Brush" = "SolidColorBrush"
    ∧ noesisSubtypeToNoesisTypeConverter "Bool" = "Boolean"
    ∧ noesisSubtypeToNoesisTypeConverter "ImageSource" = "BitmapImage"
    ∧ noesisSubtypeToNoesisTypeConverter "BaseCommand" = "MessageCommand"
    ∧ (∀ ty, ty ≠ "Brush" → ty ≠ "Bool" → ty ≠ "ImageSource" → ty ≠ "BaseCommand" →
        noesisSubtypeToNoesisTypeConverter ty = ty))
  ∧ (∀ (fuel : Nat) (R : RegistryList) (sN sub pName : String) (st : Option String)
      (d : XmlVal) (lvl : Nat) (flds : List (String × List XmlVal)) (rest : List XmlVal),
      jsGet d (sN ++ "." ++ pName) = some (.node flds :: rest) →
      ((∀ items, mapLookup flds (noesisSubtypeToNoesisTypeConverter (jsStr st)) = some items →
        propertyValue (fuel + 1) R sN sub pName (.Collection st) d lvl =
          match processArray fuel R sub (noesisSubtypeToNoesisTypeConverter (jsStr st)) items lvl with
          | .error e => .error e
          | .ok (t, lg) => .ok ("[\n" ++ t ++ sub ++ "]", lg))
      ∧ (mapLookup flds (noesisSubtypeToNoesisTypeConverter (jsStr st)) = none →
        propertyValue (fuel + 1) R sN sub pName (.Collection st) d lvl =
          .ok ("[]", [.warn (collectionWarn pName
            (noesisSubtypeToNoesisTypeConverter (jsStr st)) sN d)]))))
  ∧ (∀ (fuel : Nat) (R : RegistryList) (sN sub pName : String) (st : Option String)
      (d : XmlVal) (lvl : Nat) (sc : XmlScalar) (rest : List XmlVal),
      jsGet d (sN ++ "." ++ pName) = some (.scalar sc :: rest) →
      propertyValue (fuel + 1) R sN sub pName (.Collection st) d lvl =
        .ok ("[]", [.warn (collectionWarn pName
          (noesisSubtypeToNoesisTypeConverter (jsStr st)) sN d)]))
  ∧ (∀ (fuel : Nat) (R : RegistryList) (sN sub pName : String) (st : Option String)
      (d : XmlVal) (lvl : Nat),
      jsGet d (sN ++ "." ++ pName) = none →
      propertyValue (fuel + 1) R sN sub pName (.Collection st) d lvl = .ok ("[]", []))
  ∧ (∀ (items : List XmlVal) (sub : String)
      (enc : XmlVal → Except String (String × List Log)) (t : String) (lg : List Log),
      processArrayGo sub enc items = .ok (t, lg) →
      ∃ results : List (String × List Log),
        results.length = items.length ∧
        (∀ i (h1 : i < items.length) (h2 : i < results.length),
          enc (items.get ⟨i, h1⟩) = .ok (results.get ⟨i, h2⟩)) ∧
        t = arrayLines sub results ∧ lg = logsJoin results) := by
  refine ⟨⟨rfl, rfl, rfl, rfl, ?_⟩, ?_, ?_, ?_, processArrayGo_lines⟩
  · intro ty n1 n2 n3 n4
    simp [noesisSubtypeToNoesisTypeConverter, n1, n2, n3, n4]
  · intro fuel R sN sub pName st d lvl flds rest hw
    constructor
    · intro items hitems
      simp [propertyValue, encodeGo, processArray, processDataStructure, hw, hitems]
    · intro hitems
      simp [propertyValue, encodeGo, hw, hitems]
  · intro fuel R sN sub pName st d lvl sc rest hw
    simp [propertyValue, encodeGo, hw]
  · intro fuel R sN sub pName st d lvl hw
    simp [propertyValue, encodeGo, hw]

/-- Claim C5 witness: `SubType="Brush"` resolves to the `SolidColorBrush`
tag and both sibling elements are encoded in order. -/
theorem collection_encoding_witness :
    propertyValue 2 seedRegistry "S" "  " "bs" (.Collection (some "Brush"))
        (.node [("S.bs", [.node [("SolidColorBrush",
          [.node [("Color", [.scalar (.str "Red")])],
           .node [("Color", [.scalar (.str "Blue")])]])]])]) 2 =
      .ok ("[\n    \"Red\",\n    \"Blue\",\n  ]", []) := by
  rw [(collection_encoding.2.1 1 seedRegistry "S" "  " "bs" (some "Brush")
      (.node [("S.bs", [.node [("SolidColorBrush",
        [.node [("Color", [.scalar (.str "Red")])],
         .node [("Color", [.scalar (.str "Blue")])]])]])]) 2
      [("SolidColorBrush",
        [.node [("Color", [.scalar (.str "Red")])],
         .node [("Color", [.scalar (.str "Blue")])]])] [] rfl).1
    [.node [("Color", [.scalar (.str "Red")])],
     .node [("Color", [.scalar (.str "Blue")])]] rfl]
  rfl

/-!  ## Claim C8  -/

theorem mapLookup_foldl_mapSet (k : String) :
    ∀ (l : List (String × α)) (m : List (String × α)),
      mapLookup (l.foldl (fun acc p => mapSet acc p.1 p.2) m) k =
        match l.reverse.find? (fun p => p.1 == k) with
        | some p => some p.2
        | none => mapLookup m k := by
  intro l
  induction l with
  | nil => intro m; simp
  | cons a rest ih =>
    intro m
    rw [List.foldl_cons, ih (mapSet m a.1 a.2), List.reverse_cons, List.find?_append]
    cases hf : rest.reverse.find? (fun p => p.1 == k) with
    | some p => simp [hf, Option.or]
    | none =>
      simp only [hf, Option.or]
      by_cases hk : a.1 = k
      · simp [List.find?_cons, hk, mapLookup_mapSet]
      · have hkb : (a.1 == k) = false := by simp [hk]
        simp [List.find?_cons, hkb, mapLookup_mapSet, hk]

theorem keysNodup_foldl_mapSet :
    ∀ (l : List (String × α)) (m : List (String × α)),
      (m.map Prod.fst).Nodup →
      ((l.foldl (fun acc p => mapSet acc p.1 p.2) m).map Prod.fst).Nodup := by
  intro l
  induction l with
  | nil => intro m h; simpa using h
  | cons a rest ih =>
    intro m h
    rw [List.foldl_cons]
    exact ih (mapSet m a.1 a.2) (keysNodup_mapSet m a.1 a.2 h)

theorem readStructures_foldl :
    ∀ (sources : List StructureSource) (acc : RegistryList × List Log)
      (reg : RegistryList) (logs : List Log),
      sources.foldlM readStructuresStep acc = .ok (reg, logs) →
      reg = (sources.flatMap sourceReg).foldl (fun a p => mapSet a p.1 p.2) acc.1 := by
  intro sources
  induction sources with
  | nil =>
    intro acc reg logs h
    simp only [List.foldlM_nil, pure, Except.pure, Except.ok.injEq] at h
    simp only [List.flatMap_nil, List.foldl_nil]
    exact (congrArg Prod.fst h).symm
  | cons src rest ih =>
    intro acc reg logs h
    rw [List.foldlM_cons] at h
    cases src with
    | classSrc c =>
      simp only [readStructuresStep, bind, Except.bind] at h
      have := ih _ reg logs h
      rw [this]
      simp [sourceReg, List.flatMap_cons, List.foldl_append]
    | enumSrc e =>
      cases he : processEnumStructure e with
      | error err =>
        simp only [readStructuresStep, he, bind, Except.bind] at h
        simp at h
      | ok ne =>
        simp only [readStructuresStep, he, bind, Except.bind] at h
        have := ih _ reg logs h
        rw [this]
        simp [sourceReg, he, List.flatMap_cons, List.foldl_append]
    | unknownSrc file =>
      simp only [readStructuresStep, bind, Except.bind] at h
      have := ih _ reg logs h
      rw [this]
      simp [sourceReg, List.flatMap_cons, List.foldl_append]

/-- Claim C8: the registry maps every name to at most one definition (its
key list has no duplicates); built-in types and enums are seeded before any
schema file, and each name resolves to its LAST registration in the
sequence built-ins-then-file-structures (later registrations silently
replace earlier ones, including built-ins' names). -/
theorem registry_last_registration_wins :
    ∀ (sources : List StructureSource) (reg : RegistryList) (logs : List Log),
      readStructures sources = .ok (reg, logs) →
      ((reg.map Prod.fst).Nodup
      ∧ ∀ name, mapLookup reg name =
          ((builtinRegSeq ++ sources.flatMap sourceReg).reverse.find?
            (fun p => p.1 == name)).map Prod.snd) := by
  intro sources reg logs h
  have hseed : (addBuiltInEnums (addBuiltInTypes []) : RegistryList) =
      builtinRegSeq.foldl (fun a p => mapSet a p.1 p.2) [] := rfl
  have h1 := readStructures_foldl sources (addBuiltInEnums (addBuiltInTypes []), []) reg logs h
  have hreg : reg = (builtinRegSeq ++ sources.flatMap sourceReg).foldl
      (fun a p => mapSet a p.1 p.2) [] := by
    rw [h1, List.foldl_append, ← hseed]
  constructor
  · rw [hreg]
    exact keysNodup_foldl_mapSet _ [] (by simp)
  · intro name
    rw [hreg, mapLookup_foldl_mapSet]
    cases hf : (builtinRegSeq ++ sources.flatMap sourceReg).reverse.find?
        (fun p => p.1 == name) <;> simp [hf, mapLookup]

/-- Claim C8 witness: after loading one unknown-rooted schema file the
registry is the seeded one, its keys are unique, and `Visibility` resolves
to its last (built-in) registration. -/
theorem registry_last_registration_wins_witness :
    ((addBuiltInEnums (addBuiltInTypes []) : RegistryList).map Prod.fst).Nodup
  ∧ mapLookup (addBuiltInEnums (addBuiltInTypes [])) "Visibility" =
      ((builtinRegSeq ++ [StructureSource.unknownSrc "a.xml"].flatMap sourceReg).reverse.find?
        (fun p => p.1 == "Visibility")).map Prod.snd := by
  have h := registry_last_registration_wins [.unknownSrc "a.xml"]
    (addBuiltInEnums (addBuiltInTypes [])) [.error "Unknown structure type in file: a.xml"] rfl
  exact ⟨h.1, h.2 "Visibility"⟩

/-!  ## Claim C10  -/

theorem processProperty_erase (p : PropertySource) :
    processProperty (erasePropertySource p) = (processProperty p).map eraseProperty := by
  rcases p with ⟨nm, ty, st, ip, a, b, c, d, e⟩
  cases ty with
  | none => rfl
  | some t =>
    by_cases h1 : t = "Object"
    · subst h1
      cases st with
      | none => rfl
      | some s =>
        by_cases hs1 : s = "Brush"
        · subst hs1; rfl
        by_cases hs2 : s = "ImageSource"
        · subst hs2; rfl
        by_cases hs3 : s = "FontFamily"
        · subst hs3; rfl
        simp [processProperty, subTypeParts, erasePropertySource, hs1, hs2, hs3, Except.map, eraseProperty]
    by_cases h2 : t = "Enum"
    · subst h2; rfl
    by_cases h3 : t = "String"
    · subst h3; rfl
    by_cases h4 : t = "Number"
    · subst h4; rfl
    by_cases h5 : t = "Boolean"
    · subst h5; rfl
    by_cases h6 : t = "Collection"
    · subst h6; rfl
    by_cases h7 : t = "Command"
    · subst h7; rfl
    simp [processProperty, erasePropertySource, h1, h2, h3, h4, h5, h6, h7, Except.map]

theorem mapSet_map (g : α → β) :
    ∀ (m : List (String × α)) (k : String) (v : α),
      mapSet (m.map (fun e => (e.1, g e.2))) k (g v) =
        (mapSet m k v).map (fun e => (e.1, g e.2)) := by
  intro m
  induction m with
  | nil => intro k v; rfl
  | cons a t ih =>
    intro k v
    by_cases h : a.1 = k <;> simp [mapSet, h, ih]

theorem mapLookup_map (g : α → β) :
    ∀ (m : List (String × α)) (k : String),
      mapLookup (m.map (fun e => (e.1, g e.2))) k = (mapLookup m k).map g := by
  intro m
  induction m with
  | nil => intro k; rfl
  | cons a t ih =>
    intro k
    by_cases h : a.1 = k <;> simp [mapLookup, h, ih]

theorem classFold_erase (nm : String) :
    ∀ (props : List PropertySource) (P : List (String × NoesisProperty)) (L : List Log),
      (props.map erasePropertySource).foldl (classPropStep nm)
          (P.map (fun e => (e.1, eraseProperty e.2)), L) =
        (((props.foldl (classPropStep nm) (P, L)).1).map (fun e => (e.1, eraseProperty e.2)),
         (props.foldl (classPropStep nm) (P, L)).2) := by
  intro props
  induction props with
  | nil => intro P L; rfl
  | cons q rest ih =>
    intro P L
    rw [List.map_cons, List.foldl_cons, List.foldl_cons]
    have hstep : classPropStep nm (P.map (fun e => (e.1, eraseProperty e.2)), L)
        (erasePropertySource q) =
        ((classPropStep nm (P, L) q).1.map (fun e => (e.1, eraseProperty e.2)),
         (classPropStep nm (P, L) q).2) := by
      unfold classPropStep
      rw [processProperty_erase]
      cases hq : processProperty q with
      | ok v => simp [Except.map, mapSet_map, erasePropertySource]
      | error e => simp [Except.map, erasePropertySource]
    rw [hstep]
    exact ih ((classPropStep nm (P, L) q).1) ((classPropStep nm (P, L) q).2)

theorem processClassStructure_erase (c : ClassSource) :
    processClassStructure ⟨c.Name,
        (match c.Property with
         | .one p => .one (erasePropertySource p)
         | .many l => .many (l.map erasePropertySource))⟩ =
      ({ name := c.Name,
         properties := ((processClassStructure c).1.properties).map
           (fun e => (e.1, eraseProperty e.2)) },
       (processClassStructure c).2) := by
  cases hp : c.Property with
  | one p =>
    have h := classFold_erase c.Name [p] [] []
    simp only [List.map_cons, List.map_nil] at h
    simp only [processClassStructure, hp]
    rw [h]
  | many l =>
    have h := classFold_erase c.Name l [] []
    simp only [List.map_nil] at h
    simp only [processClassStructure, hp]
    rw [h]


theorem readStructuresStep_erase (acc : RegistryList) (L : List Log) (src : StructureSource) :
    readStructuresStep (eraseRegistry acc, L) (eraseSource src) =
      (readStructuresStep (acc, L) src).map (fun r => (eraseRegistry r.1, r.2)) := by
  cases src with
  | classSrc c =>
    simp only [eraseSource, readStructuresStep, Except.map]
    rw [processClassStructure_erase c]
    simp only [eraseRegistry]
    rw [← mapSet_map eraseStructure acc (processClassStructure c).1.name
      (.classDef (processClassStructure c).1)]
    rfl
  | enumSrc e =>
    simp only [eraseSource, readStructuresStep]
    cases he : processEnumStructure e with
    | error err => simp [Except.map]
    | ok ne =>
      simp only [Except.map, eraseRegistry]
      rw [← mapSet_map eraseStructure acc ne.name (.enumDef ne)]
      rfl
  | unknownSrc file => rfl

theorem foldlM_readStructures_erase :
    ∀ (sources : List StructureSource) (acc : RegistryList) (L : List Log),
      (sources.map eraseSource).foldlM readStructuresStep (eraseRegistry acc, L) =
        (sources.foldlM readStructuresStep (acc, L)).map (fun r => (eraseRegistry r.1, r.2)) := by
  intro sources
  induction sources with
  | nil => intro acc L; rfl
  | cons src rest ih =>
    intro acc L
    rw [List.map_cons, List.foldlM_cons, List.foldlM_cons]
    rw [readStructuresStep_erase acc L src]
    cases hs : readStructuresStep (acc, L) src with
    | error err => simp [Except.map, bind, Except.bind]
    | ok a =>
      obtain ⟨reg1, logs1⟩ := a
      simp only [Except.map, bind, Except.bind]
      exact ih reg1 logs1

theorem readStructures_erase (sources : List StructureSource) :
    readStructures (sources.map eraseSource) =
      (readStructures sources).map (fun r => (eraseRegistry r.1, r.2)) := by
  have h := foldlM_readStructures_erase sources (addBuiltInEnums (addBuiltInTypes [])) []
  have hseed : eraseRegistry (addBuiltInEnums (addBuiltInTypes [])) =
      addBuiltInEnums (addBuiltInTypes []) := rfl
  rw [hseed] at h
  exact h

theorem processArrayGo_congr (sub : String)
    (enc1 enc2 : XmlVal → Except String (String × List Log))
    (h : ∀ d, enc1 d = enc2 d) :
    ∀ items, processArrayGo sub enc1 items = processArrayGo sub enc2 items := by
  intro items
  induction items with
  | nil => rfl
  | cons d rest ih => simp [processArrayGo, h d, ih]

theorem processClassPropsGo_map_erase (sub : String)
    (pv1 pv2 : String → NoesisProperty → Except String (String × List Log))
    (h : ∀ n p, pv1 n (eraseProperty p) = pv2 n p) :
    ∀ props, processClassPropsGo sub pv1 (props.map (fun e => (e.1, eraseProperty e.2))) =
      processClassPropsGo sub pv2 props := by
  intro props
  induction props with
  | nil => rfl
  | cons a rest ih =>
    obtain ⟨n, p⟩ := a
    simp [processClassPropsGo, h n p, ih]

theorem encodeGo_erase :
    ∀ (fuel : Nat) (R : RegistryList) (lvl : Nat),
      (∀ (ind ty : String) (d : XmlVal),
        encodeGo (eraseRegistry R) lvl fuel (.struct ind ty d) =
          encodeGo R lvl fuel (.struct ind ty d))
    ∧ (∀ (sN sub n : String) (p : NoesisProperty) (d : XmlVal),
        encodeGo (eraseRegistry R) lvl fuel (.propVal sN sub n (eraseProperty p) d) =
          encodeGo R lvl fuel (.propVal sN sub n p d)) := by
  intro fuel
  induction fuel with
  | zero => intro R lvl; exact ⟨fun _ _ _ => rfl, fun _ _ _ _ _ => rfl⟩
  | succ f ih =>
    intro R lvl
    constructor
    · intro ind ty d
      have hl : mapLookup (eraseRegistry R) (lastSeg ty) =
          (mapLookup R (lastSeg ty)).map eraseStructure :=
        mapLookup_map eraseStructure R (lastSeg ty)
      cases hr : mapLookup R (lastSeg ty) with
      | none =>
        rw [hr] at hl
        simp only [Option.map_none'] at hl
        simp only [encodeGo, hl, hr]
      | some s =>
        rw [hr] at hl
        cases s with
        | classDef c =>
          have hl' : mapLookup (eraseRegistry R) (lastSeg ty) =
              some (.classDef ⟨c.name, c.properties.map (fun e => (e.1, eraseProperty e.2))⟩) := by
            rw [hl]; rfl
          simp only [encodeGo, hl', hr]
          rw [processClassPropsGo_map_erase (ind ++ spaces lvl)
            (fun propName property =>
              encodeGo (eraseRegistry R) lvl f
                (.propVal (lastSeg ty) (ind ++ spaces lvl) propName property d))
            (fun propName property =>
              encodeGo R lvl f (.propVal (lastSeg ty) (ind ++ spaces lvl) propName property d))
            (fun n p => (ih R lvl).2 (lastSeg ty) (ind ++ spaces lvl) n p d) c.properties]
        | enumDef e =>
          have hl' : mapLookup (eraseRegistry R) (lastSeg ty) = some (.enumDef e) := by
            rw [hl]; rfl
          simp only [encodeGo, hl', hr]
        | builtIn b =>
          have hl' : mapLookup (eraseRegistry R) (lastSeg ty) = some (.builtIn b) := by
            rw [hl]; rfl
          simp only [encodeGo, hl', hr]
    · intro sN sub n p d
      cases p with
      | Boolean => rfl
      | Command => rfl
      | Brush => rfl
      | Font => rfl
      | String mn mx => rfl
      | Number a b c => rfl
      | Image ip => rfl
      | Enum st => rfl
      | Object st =>
        simp only [encodeGo, eraseProperty]
        cases hj : jsGet d (sN ++ "." ++ n) with
        | none => rfl
        | some arr =>
          cases arr with
          | nil => rfl
          | cons x rest =>
            cases x with
            | scalar sc => rfl
            | node f =>
              cases hl : mapLookup f (jsStr st) with
              | none => simp [hl]
              | some inner =>
                cases inner with
                | nil => simp [hl]
                | cons i irest => simp [hl, (ih R lvl).1]
      | Collection st =>
        simp only [encodeGo, eraseProperty]
        cases hj : jsGet d (sN ++ "." ++ n) with
        | none => rfl
        | some arr =>
          cases arr with
          | nil => rfl
          | cons x rest =>
            cases x with
            | scalar sc => rfl
            | node f =>
              cases hl : mapLookup f (noesisSubtypeToNoesisTypeConverter (jsStr st)) with
              | none => simp [hl]
              | some items =>
                simp only [hl]
                rw [processArrayGo_congr _ _ _
                  (fun dd => (ih R lvl).1 (sub ++ spaces lvl)
                    (noesisSubtypeToNoesisTypeConverter (jsStr st)) dd) items]

theorem tsTypeOfProperty_erase (p : NoesisProperty) :
    tsTypeOfProperty (eraseProperty p) = tsTypeOfProperty p := by
  cases p <;> rfl

theorem outputStructure_erase (s : NoesisStructure) (lvl : Nat) :
    outputStructure (eraseStructure s) lvl = outputStructure s lvl := by
  cases s with
  | classDef c =>
    simp only [eraseStructure, outputStructure, List.map_map]
    have hmap : ((fun p => spaces lvl ++ p.1 ++ ": " ++ tsTypeOfProperty p.2 ++ ";\n") ∘
        (fun e => (e.1, eraseProperty e.2))) =
        (fun p : String × NoesisProperty =>
          spaces lvl ++ p.1 ++ ": " ++ tsTypeOfProperty p.2 ++ ";\n") := by
      funext e
      simp [Function.comp, tsTypeOfProperty_erase]
    rw [hmap]
  | enumDef e => rfl
  | builtIn b => rfl

theorem outputTypes_erase (R : RegistryList) (lvl : Nat) :
    outputTypes (eraseRegistry R) lvl = outputTypes R lvl := by
  simp only [outputTypes, eraseRegistry, List.map_map]
  have hmap : ((fun e => outputStructure e.2 lvl) ∘
      (fun e : String × NoesisStructure => (e.1, eraseStructure e.2))) =
      (fun e : String × NoesisStructure => outputStructure e.2 lvl) := by
    funext e
    simp [Function.comp, outputStructure_erase]
  rw [hmap]

theorem notBuiltIn_erase (s : NoesisStructure) : notBuiltIn (eraseStructure s) = notBuiltIn s := by
  cases s <;> rfl

theorem structureValueName_erase (s : NoesisStructure) :
    structureValueName (eraseStructure s) = structureValueName s := by
  cases s <;> rfl

theorem importNames_erase : ∀ (R : RegistryList), importNames (eraseRegistry R) = importNames R := by
  intro R
  induction R with
  | nil => rfl
  | cons a t ih =>
    obtain ⟨k, v⟩ := a
    cases v with
    | classDef c =>
      simpa [importNames, eraseRegistry, eraseStructure, notBuiltIn, structureValueName] using ih
    | enumDef e =>
      simpa [importNames, eraseRegistry, eraseStructure, notBuiltIn, structureValueName] using ih
    | builtIn b =>
      simpa [importNames, eraseRegistry, eraseStructure, notBuiltIn, structureValueName] using ih

theorem outputDataSetFile_erase (fuel : Nat) (R : RegistryList) (fdata : DataFile) (lvl : Nat) :
    outputDataSetFile fuel (eraseRegistry R) fdata lvl = outputDataSetFile fuel R fdata lvl := by
  simp only [outputDataSetFile, processDataStructure, (encodeGo_erase fuel R lvl).1,
    dataModuleContent, importNames_erase R]

theorem outputDataSets_erase (fuel : Nat) (R : RegistryList) (lvl : Nat) :
    ∀ (files : List DataFile),
      outputDataSets fuel (eraseRegistry R) files lvl = outputDataSets fuel R files lvl := by
  intro files
  induction files with
  | nil => rfl
  | cons fdata rest ih =>
    simp only [outputDataSets, outputDataSetFile_erase fuel R fdata lvl, ih]

/-- Claim C10: the word-count and numeric-range attributes recorded at
load time never influence any output: for any two schema source lists
identical except for StringMinWordCount / StringMaxWordCount /
NumberMinValue / NumberMaxValue / NumberDecimalCount, the emitted type
declarations and the encoded data modules are identical. -/
theorem bounds_never_influence_output :
    ∀ (S1 S2 : List StructureSource) (R1 R2 : RegistryList) (L1 L2 : List Log)
      (lvl fuel : Nat) (files : List DataFile),
      S1.map eraseSource = S2.map eraseSource →
      readStructures S1 = .ok (R1, L1) → readStructures S2 = .ok (R2, L2) →
      outputTypes R1 lvl = outputTypes R2 lvl
    ∧ outputDataSets fuel R1 files lvl = outputDataSets fuel R2 files lvl := by
  intro S1 S2 R1 R2 L1 L2 lvl fuel files hS h1 h2
  have e1 := readStructures_erase S1
  rw [hS, readStructures_erase S2] at e1
  rw [h1, h2] at e1
  simp only [Except.map, Except.ok.injEq, Prod.mk.injEq] at e1
  have hreg : eraseRegistry R2 = eraseRegistry R1 := e1.1
  constructor
  · rw [← outputTypes_erase R1 lvl, ← outputTypes_erase R2 lvl, hreg]
  · rw [← outputDataSets_erase fuel R1 lvl files, ← outputDataSets_erase fuel R2 lvl files, hreg]

/-- Claim C10 witness: two one-class schemas differing only in the String
word-count bounds produce identical emitted types and data modules. -/
theorem bounds_never_influence_output_witness :
    outputTypes (mapSet seedRegistry "C"
        (.classDef ⟨"C", [("t", .String (some 1) (some 2))]⟩)) 2 =
      outputTypes (mapSet seedRegistry "C"
        (.classDef ⟨"C", [("t", .String (some 9) none)]⟩)) 2
  ∧ outputDataSets 2 (mapSet seedRegistry "C"
        (.classDef ⟨"C", [("t", .String (some 1) (some 2))]⟩))
      [{ file := "d.xaml", rootType := "C", data := .node [] }] 2 =
    outputDataSets 2 (mapSet seedRegistry "C"
        (.classDef ⟨"C", [("t", .String (some 9) none)]⟩))
      [{ file := "d.xaml", rootType := "C", data := .node [] }] 2 :=
  bounds_never_influence_output
    [.classSrc ⟨"C", .many [⟨"t", some "String", none, none, some 1, some 2, none, none, none⟩]⟩]
    [.classSrc ⟨"C", .many [⟨"t", some "String", none, none, some 9, none, none, none, none⟩]⟩]
    (mapSet seedRegistry "C" (.classDef ⟨"C", [("t", .String (some 1) (some 2))]⟩))
    (mapSet seedRegistry "C" (.classDef ⟨"C", [("t", .String (some 9) none)]⟩))
    [] [] 2 2 [{ file := "d.xaml", rootType := "C", data := .node [] }] rfl rfl rfl
